import Mathlib

/-!
Shallow embedding of `nih/main.c` from libnih (main loop handling and
functions often called from `main()`), together with theorems settling the
specification claims about it.

Conventions used throughout:
* C strings are modelled as `List Char`; file systems as functions from a
  path (`List Char`) to an optional content (`Option (List Char)`).
* System calls that can fail are driven by explicit fault parameters or by
  result oracles, so the error-handling paths of the C code become ordinary
  case splits.
* Loops whose termination depends on the outside world (`while (write … < 0)`)
  take an explicit fuel argument; returning `none` means the loop was still
  running after `fuel` rounds.
-/

namespace NihMain

/-! ## The select timeout computation (`nih_main_loop`, main.c lines 556-582)

The C code is:
```
next_timer = nih_timer_next_due ();
if (next_timer) {
        nih_assert (clock_gettime (CLOCK_MONOTONIC, &now) == 0);
        timeout.tv_sec = next_timer->due - now.tv_sec;
        timeout.tv_usec = 0;
}
...
ret = select (nfds, ..., (next_timer ? &timeout : NULL));
```
`nextDue` is the due time of the next timer (in seconds, `none` when no timer
is pending) and `now` the current monotonic clock seconds.  The result is the
`struct timeval` passed to `select` (`tv_sec`, `tv_usec`), or `none` for the
NULL (unbounded) timeout. -/

def selectTimeout (nextDue : Option Int) (now : Int) : Option (Int × Int) :=
  match nextDue with
  | none => none
  | some due => some (due - now, 0)

/-! ## The interrupt write loop (`nih_main_loop_interrupt`, main.c lines 624-632)

The C code, after initialisation, is:
```
if (interrupt_pipe[1] != -1)
        while (write (interrupt_pipe[1], "", 1) < 0)
                ;
```
`res i` is the return value of the `i`-th `write` call on the pipe's write
endpoint (negative on failure, e.g. `EAGAIN` when the non-blocking pipe
buffer is full).  `interruptRun res i fuel` runs the retry loop starting at
the `i`-th call with `fuel` calls still allowed; it returns `some k` when the
loop terminated after a total of `k` write calls, and `none` when the loop
was still retrying after exhausting `fuel`. -/

def interruptRun (res : Nat → Int) : Nat → Nat → Option Nat
  | _, 0 => none
  | i, fuel + 1 => if res i < 0 then interruptRun res (i + 1) fuel else some (i + 1)

/-- The whole of `nih_main_loop_interrupt` with the pipe initialised:
the retry loop started at the first write call. -/
def nih_main_loop_interrupt (res : Nat → Int) (fuel : Nat) : Option Nat :=
  interruptRun res 0 fuel

theorem interruptRun_step (res : Nat → Int) (i fuel : Nat) :
    interruptRun res i (fuel + 1) =
      if res i < 0 then interruptRun res (i + 1) fuel else some (i + 1) := rfl

theorem interruptRun_stuck (res : Nat → Int) (h : ∀ i, res i < 0) :
    ∀ fuel i, interruptRun res i fuel = none := by
  intro fuel
  induction fuel with
  | zero => intro i; rfl
  | succ n ih =>
      intro i
      rw [interruptRun_step, if_pos (h i)]
      exact ih (i + 1)

theorem interruptRun_exit (res : Nat → Int) :
    ∀ fuel i k, (∀ j, i ≤ j → j < i + k → res j < 0) → 0 ≤ res (i + k) →
      i + k < i + fuel → interruptRun res i fuel = some (i + k + 1) := by
  intro fuel
  induction fuel with
  | zero => intro i k _ _ hlt; omega
  | succ n ih =>
      intro i k hneg hok hlt
      rcases Nat.eq_zero_or_pos k with hk | hk
      · subst hk
        rw [interruptRun_step, if_neg (by simpa using hok)]
      · have hi : res i < 0 := hneg i le_rfl (by omega)
        rw [interruptRun_step, if_pos hi]
        have := ih (i + 1) (k - 1) (fun j h1 h2 => hneg j (by omega) (by omega))
          (by have : i + 1 + (k - 1) = i + k := by omega
              rw [this]; exact hok)
          (by omega)
        have hkk : i + 1 + (k - 1) = i + k := by omega
        rw [hkk] at this
        exact this

end NihMain

/-! ### Claim theorems for the interrupt operation and the select timeout -/

/-- C1 (counterexample): with a timer due at monotonic time 0 queried at
monotonic time 5 (i.e. the timer is already 5 seconds overdue), the timeout
handed to `select` is `(-5, 0)`: it is negative, and it is not
`max 0 (due - now)` as the claim states. -/
theorem selectTimeout_not_clamped :
    NihMain.selectTimeout (some 0) 5 = some (-5, 0) ∧
      ¬ NihMain.selectTimeout (some 0) 5 = some (max 0 ((0 : Int) - 5), 0) := by
  constructor
  · rfl
  · decide

/-- C1 (amended): when a timer is pending the timeout passed to `select` is
the unclamped difference `due - now` in whole seconds (so it is negative
whenever the nearest timer is overdue), and when no timer is pending the
timeout is NULL (unbounded wait). -/
theorem selectTimeout_spec (nextDue : Option Int) (now : Int) :
    NihMain.selectTimeout nextDue now = nextDue.map (fun due => (due - now, 0)) := by
  cases nextDue <;> rfl

/-- C4 (counterexample): when every write on the interrupt pipe fails (as
with a persistently full non-blocking pipe buffer returning `EAGAIN`), the
interrupt operation is still retrying after 5 write calls — it neither
performs a single write nor treats would-block as success. -/
theorem interrupt_spins_on_would_block :
    NihMain.nih_main_loop_interrupt (fun _ => -1) 5 = none ∧
      ¬ NihMain.nih_main_loop_interrupt (fun _ => -1) 5 = some 1 := by
  constructor
  · rfl
  · decide

/-- C4 (amended): `nih_main_loop_interrupt` retries the one-byte write until
a write call succeeds: if the first `k` writes fail and the `(k+1)`-st
succeeds it returns after exactly `k+1` write calls (so exactly one write
when the first call succeeds), and when every write call fails — e.g. a
persistently full pipe buffer — it never returns, however much fuel it is
given. -/
theorem nih_main_loop_interrupt_retries (res : Nat → Int) (k fuel : Nat)
    (hneg : ∀ j < k, res j < 0) (hok : 0 ≤ res k) (hfuel : k < fuel) :
    NihMain.nih_main_loop_interrupt res fuel = some (k + 1) ∧
      ∀ badRes : Nat → Int, (∀ i, badRes i < 0) →
        NihMain.nih_main_loop_interrupt badRes fuel = none := by
  constructor
  · have := NihMain.interruptRun_exit res fuel 0 k
      (fun j h1 h2 => hneg j (by omega)) (by simpa using hok) (by omega)
    simpa [NihMain.nih_main_loop_interrupt] using this
  · intro badRes hbad
    exact NihMain.interruptRun_stuck badRes hbad fuel 0

/-- Witness for `nih_main_loop_interrupt_retries`: with the first write
failing and the second succeeding, the operation returns after 2 writes. -/
theorem nih_main_loop_interrupt_retries_witness :
    NihMain.nih_main_loop_interrupt (fun i => if i = 0 then -1 else 0) 3 = some 2 ∧
      ∀ badRes : Nat → Int, (∀ i, badRes i < 0) →
        NihMain.nih_main_loop_interrupt badRes 3 = none :=
  nih_main_loop_interrupt_retries (fun i => if i = 0 then -1 else 0) 1 3
    (by decide) (by decide) (by decide)

namespace NihMain

/-! ## The pid file store (`main.c` lines 350-500)

`pid_file` is the static location variable, `program_name` the global set by
`nih_main_init_full`; the file system is a map from paths to optional
contents.  All strings are `List Char`. -/

/-- The static `pid_file` variable: location of the pid file, or `none` if
the default is to be computed. -/
structure PidState where
  pid_file : Option (List Char)
  deriving DecidableEq

/-- A file system: path to optional contents. -/
def FS : Type := List Char → Option (List Char)

/-- Point update of a file system (file creation, overwrite or `unlink`). -/
def fsSet (fs : FS) (p : List Char) (v : Option (List Char)) : FS :=
  fun q => if q = p then v else fs q

/-- The function `nih_main_set_pidfile` (main.c lines 357-369): discards any previous
location; a non-NULL filename must start with `/` (`nih_assert
(filename[0] == '/')`) or the process aborts, modelled by returning `none`. -/
def nih_main_set_pidfile (filename : Option (List Char)) (st : PidState) :
    Option PidState :=
  match filename with
  | none => some ⟨none⟩
  | some f => if f.head? = some '/' then some ⟨some f⟩ else none

/-- The default pid file location `"%s/%s.pid"` with `VAR_RUN = "/var/run"`. -/
def defaultPidfilePath (prog : List Char) : List Char :=
  "/var/run/".toList ++ prog ++ ".pid".toList

/-- The function `nih_main_get_pidfile` (main.c lines 379-389): lazily computes and caches
the default location when none is set. -/
def nih_main_get_pidfile (prog : List Char) (st : PidState) :
    List Char × PidState :=
  match st.pid_file with
  | some p => (p, st)
  | none => (defaultPidfilePath prog, ⟨some (defaultPidfilePath prog)⟩)

/-- C's `isspace` for the default locale, as used by `fscanf`. -/
def cIsSpace (c : Char) : Bool :=
  c = ' ' || c = '\t' || c = '\n' || c = '\x0b' || c = '\x0c' || c = '\r'

/-- Value of a digit string (most significant first). -/
def digitsToNat (l : List Char) : Nat :=
  l.foldl (fun a c => a * 10 + (c.toNat - '0'.toNat)) 0

/-- The call `fscanf (pidfile, "%d", &pid)` on the file contents: skip leading white
space, accept an optional sign, then require at least one digit; `none`
models a match failure (`fscanf` returning 0 instead of 1). -/
def scanInt (l : List Char) : Option Int :=
  let l1 := l.dropWhile cIsSpace
  let sl : Int × List Char :=
    match l1 with
    | '-' :: rest => (-1, rest)
    | '+' :: rest => (1, rest)
    | _ => (1, l1)
  let ds := sl.2.takeWhile Char.isDigit
  if ds.isEmpty then none else some (sl.1 * digitsToNat ds)

/-- The function `nih_main_read_pidfile` (main.c lines 399-419): open the pid file; on
open failure the pid is `-1`; otherwise parse a leading `%d`, with `-1` on a
parse failure.  Returns the pid and the (possibly updated by the embedded
`nih_main_get_pidfile` call) location state. -/
def nih_main_read_pidfile (prog : List Char) (st : PidState) (fs : FS) :
    Int × PidState :=
  let fp := nih_main_get_pidfile prog st
  match fs fp.1 with
  | none => (-1, fp.2)
  | some s =>
      match scanInt s with
      | none => (-1, fp.2)
      | some n => (n, fp.2)

/-- Split a string at its last `/`: `lastSlashSplit l = some (pre, post)`
when `l = pre ++ '/' :: post` with no `/` in `post` (C's `strrchr`),
`none` when `l` has no `/`. -/
def lastSlashSplit : List Char → Option (List Char × List Char)
  | [] => none
  | c :: rest =>
      match lastSlashSplit rest with
      | some pp => some (c :: pp.1, pp.2)
      | none => if c = '/' then some ([], rest) else none

/-- The hidden temporary file name `"%.*s/.%s.tmp"` built by
`nih_main_write_pidfile` from the directory and basename of the pid file
path.  (The no-slash branch is unreachable: the pid file location is always
absolute.) -/
def tmpName (filename : List Char) : List Char :=
  match lastSlashSplit filename with
  | some pp => pp.1 ++ '/' :: '.' :: (pp.2 ++ ".tmp".toList)
  | none => '.' :: (filename ++ ".tmp".toList)

/-- Which steps of `nih_main_write_pidfile` fail (system-call fault model). -/
structure WriteFaults where
  openFail : Bool
  printfFail : Bool
  flushFail : Bool
  syncFail : Bool
  closeFail : Bool
  renameFail : Bool
  deriving DecidableEq

/-- The successful `WriteFaults` assignment: no step fails. -/
def noFaults : WriteFaults := ⟨false, false, false, false, false, false⟩

/-- The pid file contents written by `fprintf (pidfile, "%d\n", pid)`. -/
def pidContent (pid : Int) : List Char :=
  Nat.toDigits 10 pid.toNat ++ ['\n']

/-- The function `nih_main_write_pidfile` (main.c lines 433-483) for a given pid file
location `filename`: write the pid to the hidden temporary file alongside
it, flush, fsync and close, then rename it onto `filename`; on a failure at
any step after the open, `fclose`/`unlink` the temporary file and return -1;
on open failure return -1 directly.  Returns the C return value and the
resulting file system. -/
def nih_main_write_pidfile (pid : Int) (filename : List Char)
    (f : WriteFaults) (fs : FS) : Int × FS :=
  let tmpname := tmpName filename
  if f.openFail then (-1, fs)
  else
    let fs1 := fsSet fs tmpname (some [])
    if f.printfFail || f.flushFail || f.syncFail || f.closeFail then
      (-1, fsSet fs1 tmpname none)
    else
      let fs2 := fsSet fs1 tmpname (some (pidContent pid))
      if f.renameFail then (-1, fsSet fs2 tmpname none)
      else (0, fsSet (fsSet fs2 tmpname none) filename (some (pidContent pid)))

theorem lastSlashSplit_of_no_slash {l : List Char} (h : '/' ∉ l) :
    lastSlashSplit l = none := by
  induction l with
  | nil => rfl
  | cons c rest ih =>
      have hc : c ≠ '/' := fun hc => h (hc ▸ List.mem_cons_self c rest)
      have hr : '/' ∉ rest := fun hr => h (List.mem_cons_of_mem c hr)
      simp [lastSlashSplit, ih hr, hc]

theorem lastSlashSplit_append (pre base : List Char) (h : '/' ∉ base) :
    lastSlashSplit (pre ++ '/' :: base) = some (pre, base) := by
  induction pre with
  | nil => simp [lastSlashSplit, lastSlashSplit_of_no_slash h]
  | cons c rest ih => simp [lastSlashSplit, ih]

theorem tmpName_append (pre base : List Char) (h : '/' ∉ base) :
    tmpName (pre ++ '/' :: base) = pre ++ '/' :: '.' :: (base ++ ".tmp".toList) := by
  simp [tmpName, lastSlashSplit_append pre base h]

theorem tmpName_ne (pre base : List Char) (h : '/' ∉ base) :
    pre ++ '/' :: base ≠ tmpName (pre ++ '/' :: base) := by
  intro heq
  have hlen := congrArg List.length heq
  rw [tmpName_append pre base h] at hlen
  simp [String.toList] at hlen

end NihMain

/-! ### Claim theorems for the pid file store -/

/-- C7: `nih_main_set_pidfile` with a non-NULL path not starting with `/`
trips the `nih_assert (filename[0] == '/')` programming-error assertion
(modelled as `none`); with NULL it restores default computation, so a
subsequent `nih_main_get_pidfile` lazily computes, caches and returns
`/var/run/<program-name>.pid`, and later calls return the cached copy
unchanged. -/
theorem nih_main_set_pidfile_assert (f : List Char) (hf : f.head? ≠ some '/')
    (st st2 : NihMain.PidState) (prog : List Char) :
    NihMain.nih_main_set_pidfile (some f) st = none ∧
      NihMain.nih_main_set_pidfile none st2 = some ⟨none⟩ ∧
      NihMain.nih_main_get_pidfile prog ⟨none⟩ =
        (NihMain.defaultPidfilePath prog,
          ⟨some (NihMain.defaultPidfilePath prog)⟩) ∧
      NihMain.nih_main_get_pidfile prog ⟨some (NihMain.defaultPidfilePath prog)⟩ =
        (NihMain.defaultPidfilePath prog,
          ⟨some (NihMain.defaultPidfilePath prog)⟩) := by
  refine ⟨?_, rfl, rfl, rfl⟩
  simp [NihMain.nih_main_set_pidfile, hf]

/-- Witness for `nih_main_set_pidfile_assert` at the concrete relative path
`relative/path` and program name `myprog`. -/
theorem nih_main_set_pidfile_assert_witness :
    NihMain.nih_main_set_pidfile (some "relative/path".toList) ⟨none⟩ = none ∧
      NihMain.nih_main_set_pidfile none ⟨some "/x".toList⟩ = some ⟨none⟩ ∧
      NihMain.nih_main_get_pidfile "myprog".toList ⟨none⟩ =
        (NihMain.defaultPidfilePath "myprog".toList,
          ⟨some (NihMain.defaultPidfilePath "myprog".toList)⟩) ∧
      NihMain.nih_main_get_pidfile "myprog".toList
          ⟨some (NihMain.defaultPidfilePath "myprog".toList)⟩ =
        (NihMain.defaultPidfilePath "myprog".toList,
          ⟨some (NihMain.defaultPidfilePath "myprog".toList)⟩) :=
  nih_main_set_pidfile_assert "relative/path".toList (by decide)
    ⟨none⟩ ⟨some "/x".toList⟩ "myprog".toList

/-- C8: `nih_main_read_pidfile` never raises a hard error: whenever the pid
file cannot be opened, or its contents do not begin with a parsable integer,
it returns `-1` — the negative "no pid available" outcome. -/
theorem nih_main_read_pidfile_advisory (prog : List Char)
    (st : NihMain.PidState) (fs : NihMain.FS)
    (h : fs (NihMain.nih_main_get_pidfile prog st).1 = none ∨
         ∃ s, fs (NihMain.nih_main_get_pidfile prog st).1 = some s ∧
           NihMain.scanInt s = none) :
    (NihMain.nih_main_read_pidfile prog st fs).1 = -1 ∧
      (NihMain.nih_main_read_pidfile prog st fs).1 < 0 := by
  have hmain : (NihMain.nih_main_read_pidfile prog st fs).1 = -1 := by
    rcases h with h | ⟨s, hs, hparse⟩
    · simp [NihMain.nih_main_read_pidfile, h]
    · simp [NihMain.nih_main_read_pidfile, hs, hparse]
  exact ⟨hmain, by rw [hmain]; decide⟩

/-- Witness for `nih_main_read_pidfile_advisory`: an absent pid file yields
the negative "no pid available" outcome. -/
theorem nih_main_read_pidfile_advisory_witness :
    (NihMain.nih_main_read_pidfile "myprog".toList ⟨none⟩ (fun _ => none)).1 = -1 ∧
      (NihMain.nih_main_read_pidfile "myprog".toList ⟨none⟩ (fun _ => none)).1 < 0 :=
  nih_main_read_pidfile_advisory "myprog".toList ⟨none⟩ (fun _ => none) (Or.inl rfl)

/-- C10: `nih_main_read_pidfile` returns the parsed leading integer of the
file without validating it against the positive-pid precondition asserted by
`nih_main_write_pidfile`: whatever integer `n` the contents parse to — zero
or negative included — is returned as is; and an absent file returns `-1`,
so a stored negative value is indistinguishable from the "no pid available"
outcome. -/
theorem nih_main_read_pidfile_no_validation (prog : List Char)
    (st : NihMain.PidState) (fs : NihMain.FS) (s : List Char) (n : Int)
    (hs : fs (NihMain.nih_main_get_pidfile prog st).1 = some s)
    (hn : NihMain.scanInt s = some n) :
    (NihMain.nih_main_read_pidfile prog st fs).1 = n ∧
      (NihMain.nih_main_read_pidfile prog st (fun _ => none)).1 = -1 := by
  constructor
  · simp [NihMain.nih_main_read_pidfile, hs, hn]
  · simp [NihMain.nih_main_read_pidfile]

/-- Witness for `nih_main_read_pidfile_no_validation`: a pid file containing
`0\n` is read back as the pid 0, one containing `-5\n` as the pid -5, and in
the latter case the result, being negative, coincides in sign with the "no
pid" outcome of an absent file. -/
theorem nih_main_read_pidfile_no_validation_witness :
    ((NihMain.nih_main_read_pidfile "myprog".toList ⟨none⟩
        (fun _ => some "0\n".toList)).1 = 0 ∧
      (NihMain.nih_main_read_pidfile "myprog".toList ⟨none⟩ (fun _ => none)).1 = -1) ∧
    ((NihMain.nih_main_read_pidfile "myprog".toList ⟨none⟩
        (fun _ => some "-5\n".toList)).1 = -5 ∧
      (NihMain.nih_main_read_pidfile "myprog".toList ⟨none⟩ (fun _ => none)).1 = -1) :=
  ⟨nih_main_read_pidfile_no_validation "myprog".toList ⟨none⟩
      (fun _ => some "0\n".toList) "0\n".toList 0 rfl (by decide),
    nih_main_read_pidfile_no_validation "myprog".toList ⟨none⟩
      (fun _ => some "-5\n".toList) "-5\n".toList (-5) rfl (by decide)⟩

/-- C6: for every positive pid, `nih_main_write_pidfile` publishes through
the hidden temporary file `.<basename>.tmp` in the pid file's directory:
the temporary name is exactly `<dir>/.<basename>.tmp`; whatever happens, no
temporary file remains afterwards; on success (return 0) the final path
holds the decimal pid plus newline; on failure (return -1) the final path
is untouched; and the call succeeds exactly when no step of the
open/write/flush/fsync/close/rename sequence fails. -/
theorem nih_main_write_pidfile_atomic (pid : Int) (hpid : 0 < pid)
    (pre base : List Char) (hb : '/' ∉ base) (f : NihMain.WriteFaults)
    (fs : NihMain.FS)
    (hstale : fs (NihMain.tmpName (pre ++ '/' :: base)) = none) :
    NihMain.tmpName (pre ++ '/' :: base) =
        pre ++ '/' :: '.' :: (base ++ ".tmp".toList) ∧
      (NihMain.nih_main_write_pidfile pid (pre ++ '/' :: base) f fs).2
        (NihMain.tmpName (pre ++ '/' :: base)) = none ∧
      ((NihMain.nih_main_write_pidfile pid (pre ++ '/' :: base) f fs).1 = 0 →
        (NihMain.nih_main_write_pidfile pid (pre ++ '/' :: base) f fs).2
          (pre ++ '/' :: base) = some (NihMain.pidContent pid)) ∧
      ((NihMain.nih_main_write_pidfile pid (pre ++ '/' :: base) f fs).1 ≠ 0 →
        (NihMain.nih_main_write_pidfile pid (pre ++ '/' :: base) f fs).2
          (pre ++ '/' :: base) = fs (pre ++ '/' :: base)) ∧
      ((NihMain.nih_main_write_pidfile pid (pre ++ '/' :: base) f fs).1 = 0 ↔
        f = NihMain.noFaults) ∧
      ((NihMain.nih_main_write_pidfile pid (pre ++ '/' :: base) f fs).1 = 0 ∨
        (NihMain.nih_main_write_pidfile pid (pre ++ '/' :: base) f fs).1 = -1) := by
  have hne := NihMain.tmpName_ne pre base hb
  refine ⟨NihMain.tmpName_append pre base hb, ?_⟩
  rcases f with ⟨o, pr, fl, sy, cl, re⟩
  cases o <;> cases pr <;> cases fl <;> cases sy <;> cases cl <;> cases re <;>
    simp [NihMain.nih_main_write_pidfile, NihMain.fsSet, NihMain.noFaults,
      hstale, hne, Ne.symm hne]

/-- Witness for `nih_main_write_pidfile_atomic` at pid 1234 and pid file
`/var/run/myprog.pid` on an empty file system with no step failing. -/
theorem nih_main_write_pidfile_atomic_witness :
    NihMain.tmpName ("/var/run".toList ++ '/' :: "myprog.pid".toList) =
        "/var/run".toList ++ '/' :: '.' :: ("myprog.pid".toList ++ ".tmp".toList) ∧
      (NihMain.nih_main_write_pidfile 1234
          ("/var/run".toList ++ '/' :: "myprog.pid".toList)
          NihMain.noFaults (fun _ => none)).2
        (NihMain.tmpName ("/var/run".toList ++ '/' :: "myprog.pid".toList)) = none ∧
      ((NihMain.nih_main_write_pidfile 1234
          ("/var/run".toList ++ '/' :: "myprog.pid".toList)
          NihMain.noFaults (fun _ => none)).1 = 0 →
        (NihMain.nih_main_write_pidfile 1234
          ("/var/run".toList ++ '/' :: "myprog.pid".toList)
          NihMain.noFaults (fun _ => none)).2
          ("/var/run".toList ++ '/' :: "myprog.pid".toList) =
            some (NihMain.pidContent 1234)) ∧
      ((NihMain.nih_main_write_pidfile 1234
          ("/var/run".toList ++ '/' :: "myprog.pid".toList)
          NihMain.noFaults (fun _ => none)).1 ≠ 0 →
        (NihMain.nih_main_write_pidfile 1234
          ("/var/run".toList ++ '/' :: "myprog.pid".toList)
          NihMain.noFaults (fun _ => none)).2
          ("/var/run".toList ++ '/' :: "myprog.pid".toList) =
            (fun _ => (none : Option (List Char)))
              ("/var/run".toList ++ '/' :: "myprog.pid".toList)) ∧
      ((NihMain.nih_main_write_pidfile 1234
          ("/var/run".toList ++ '/' :: "myprog.pid".toList)
          NihMain.noFaults (fun _ => none)).1 = 0 ↔
        NihMain.noFaults = NihMain.noFaults) ∧
      ((NihMain.nih_main_write_pidfile 1234
          ("/var/run".toList ++ '/' :: "myprog.pid".toList)
          NihMain.noFaults (fun _ => none)).1 = 0 ∨
        (NihMain.nih_main_write_pidfile 1234
          ("/var/run".toList ++ '/' :: "myprog.pid".toList)
          NihMain.noFaults (fun _ => none)).1 = -1) :=
  nih_main_write_pidfile_atomic 1234 (by decide) "/var/run".toList
    "myprog.pid".toList (by decide) NihMain.noFaults (fun _ => none) rfl

namespace NihMain

/-! ## Main loop run state and `nih_main_loop_exit` (main.c lines 139-152,
537-615, 644-651)

`exit_loop` / `exit_status` are the thread-local statics.  A loop iteration
is abstracted to the list of callbacks it dispatches (I/O, signal, child,
timer and loop-function callbacks alike); each callback has an id and may
call `nih_main_loop_exit` with some status.  `nih_main_loop` runs the
`while (!exit_loop)` loop over the given iterations, threading a trace of
every callback invoked; it returns `some` of the C return value, the final
values of the statics, and the trace — or `none` when the supplied
iterations ran out with the flag still clear (the real loop would keep
blocking). -/

/-- The thread-local statics `exit_loop` (here `Bool` for C's int 0/1) and
`exit_status`. -/
structure LoopState where
  exit_loop : Bool
  exit_status : Int
  deriving DecidableEq

/-- The function `nih_main_loop_exit` (main.c lines 644-651): store the status, set the
flag.  (The trailing `nih_main_loop_interrupt` call only wakes the pipe and
does not touch these statics.) -/
def nih_main_loop_exit (status : Int) (st : LoopState) : LoopState :=
  { exit_loop := true, exit_status := status }

/-- A dispatched callback: its id, and the `nih_main_loop_exit` request it
makes during its invocation, if any. -/
structure LoopCallback where
  id : Nat
  exitReq : Option Int
  deriving DecidableEq

/-- Invoke one callback: apply its exit request (if any) to the statics and
record its id in the invocation trace. -/
def runCallback (acc : LoopState × List Nat) (cb : LoopCallback) :
    LoopState × List Nat :=
  (match cb.exitReq with
   | none => acc.1
   | some s => nih_main_loop_exit s acc.1,
   acc.2 ++ [cb.id])

/-- One full iteration of the `while` body: every remaining step of the
iteration runs to completion — the exit flag is only re-examined at the top
of the loop. -/
def runIteration (cbs : List LoopCallback) (acc : LoopState × List Nat) :
    LoopState × List Nat :=
  cbs.foldl runCallback acc

/-- The function `nih_main_loop` (main.c lines 537-615) over a schedule of iterations:
`while (!exit_loop) { iteration }; exit_loop = 0; return exit_status;`.
Returns the C return value, the final statics, and the callback trace. -/
def nih_main_loop :
    List (List LoopCallback) → LoopState → List Nat →
      Option (Int × LoopState × List Nat)
  | iters, st, trace =>
    if st.exit_loop then some (st.exit_status, ⟨false, st.exit_status⟩, trace)
    else
      match iters with
      | [] => none
      | it :: rest =>
          nih_main_loop rest (runIteration it (st, trace)).1
            (runIteration it (st, trace)).2

theorem nih_main_loop_stop (iters : List (List LoopCallback)) (s : Int)
    (trace : List Nat) :
    nih_main_loop iters ⟨true, s⟩ trace = some (s, ⟨false, s⟩, trace) := by
  rw [nih_main_loop.eq_def]
  simp

theorem nih_main_loop_enter (it : List LoopCallback)
    (rest : List (List LoopCallback)) (d : Int) (trace : List Nat) :
    nih_main_loop (it :: rest) ⟨false, d⟩ trace =
      nih_main_loop rest (runIteration it (⟨false, d⟩, trace)).1
        (runIteration it (⟨false, d⟩, trace)).2 := by
  rw [nih_main_loop.eq_def]
  simp

theorem runIteration_trace (cbs : List LoopCallback) :
    ∀ st trace, (runIteration cbs (st, trace)).2 = trace ++ cbs.map LoopCallback.id := by
  induction cbs with
  | nil => intro st trace; simp [runIteration]
  | cons c rest ih =>
      intro st trace
      cases c with
      | mk i req =>
          cases req <;>
            simp [runIteration, runCallback, List.foldl_cons] at ih ⊢ <;>
            rw [ih] <;> simp

theorem runIteration_state_of_quiet (cbs : List LoopCallback)
    (h : ∀ cb ∈ cbs, cb.exitReq = none) :
    ∀ st trace, (runIteration cbs (st, trace)).1 = st := by
  induction cbs with
  | nil => intro st trace; simp [runIteration]
  | cons c rest ih =>
      intro st trace
      have hc : c.exitReq = none := h c (List.mem_cons_self c rest)
      have hrest : ∀ cb ∈ rest, cb.exitReq = none :=
        fun cb hcb => h cb (List.mem_cons_of_mem c hcb)
      simp [runIteration, List.foldl_cons, runCallback, hc] at ih ⊢
      exact ih hrest st (trace ++ [c.id])

theorem runIteration_state_of_exit (pre post : List LoopCallback) (i : Nat)
    (s : Int) (hpost : ∀ cb ∈ post, cb.exitReq = none) (st : LoopState)
    (trace : List Nat) :
    (runIteration (pre ++ ⟨i, some s⟩ :: post) (st, trace)).1 = ⟨true, s⟩ := by
  have hsplit : runIteration (pre ++ ⟨i, some s⟩ :: post) (st, trace) =
      runIteration post (runCallback (runIteration pre (st, trace)) ⟨i, some s⟩) := by
    simp [runIteration, List.foldl_append]
  rw [hsplit]
  have hmid : runCallback (runIteration pre (st, trace)) ⟨i, some s⟩ =
      (⟨true, s⟩, (runIteration pre (st, trace)).2 ++ [i]) := by
    simp [runCallback, nih_main_loop_exit]
  rw [hmid]
  exact runIteration_state_of_quiet post hpost _ _

end NihMain

/-! ### Claim theorems for `nih_main_loop_exit` -/

/-- C3 (counterexample): running the loop with a single iteration whose only
callback requests exit with status 7 returns 7, but the stored exit status
afterwards is 7, not its default 0: only the exit flag has been reset, so
the claim that "both the exit flag and the stored exit status are reset to
their defaults" is false. -/
theorem nih_main_loop_exit_status_not_reset :
    NihMain.nih_main_loop [[⟨1, some 7⟩]] ⟨false, 0⟩ [] =
        some (7, ⟨false, 7⟩, [1]) ∧
      (NihMain.LoopState.mk false 7).exit_status ≠ 0 := by
  constructor
  · rfl
  · decide

/-- C3 (amended): `nih_main_loop_exit s` called from within a dispatched
callback (with no later exit request in that iteration) makes
`nih_main_loop` return `s` after the remainder of the current iteration has
run to completion — the trace contains every callback id of that iteration;
before returning, the exit flag (but not the stored status, which retains
`s`) is reset to its default, so that re-entering `nih_main_loop` does not
return at once but runs fresh iterations, a new exit request `t` then being
returned as `t`. -/
theorem nih_main_loop_exit_spec (pre post : List NihMain.LoopCallback)
    (i : Nat) (s d : Int) (rest : List (List NihMain.LoopCallback))
    (hpost : ∀ cb ∈ post, cb.exitReq = none) :
    NihMain.nih_main_loop ((pre ++ ⟨i, some s⟩ :: post) :: rest) ⟨false, d⟩ [] =
        some (s, ⟨false, s⟩,
          (pre ++ ⟨i, some s⟩ :: post).map NihMain.LoopCallback.id) ∧
      ∀ t : Int, ∀ more : List (List NihMain.LoopCallback),
        NihMain.nih_main_loop ([⟨0, some t⟩] :: more) ⟨false, s⟩ [] =
          some (t, ⟨false, t⟩, [0]) := by
  constructor
  · rw [NihMain.nih_main_loop_enter,
      NihMain.runIteration_state_of_exit pre post i s hpost,
      NihMain.runIteration_trace, NihMain.nih_main_loop_stop]
    simp
  · intro t more
    have h1 : NihMain.runIteration [⟨0, some t⟩] (⟨false, s⟩, []) =
        (⟨true, t⟩, [0]) := by
      simp [NihMain.runIteration, NihMain.runCallback, NihMain.nih_main_loop_exit]
    rw [NihMain.nih_main_loop_enter, h1]
    exact NihMain.nih_main_loop_stop more t [0]

/-- Witness for `nih_main_loop_exit_spec`: one iteration dispatching
callbacks 1, 2, 3, of which callback 2 requests exit with status 9; the loop
returns 9, callbacks 1, 2 and 3 all ran, and the flag is clear afterwards. -/
theorem nih_main_loop_exit_spec_witness :
    NihMain.nih_main_loop
        (([⟨1, none⟩] ++ ⟨2, some 9⟩ :: [⟨3, none⟩]) :: []) ⟨false, 0⟩ [] =
        some (9, ⟨false, 9⟩,
          (([⟨1, none⟩] ++ ⟨2, some 9⟩ :: [⟨3, none⟩]) :
              List NihMain.LoopCallback).map NihMain.LoopCallback.id) ∧
      ∀ t : Int, ∀ more : List (List NihMain.LoopCallback),
        NihMain.nih_main_loop ([⟨0, some t⟩] :: more) ⟨false, 9⟩ [] =
          some (t, ⟨false, t⟩, [0]) :=
  nih_main_loop_exit_spec [⟨1, none⟩] [⟨3, none⟩] 2 9 0 [] (by decide)

namespace NihMain

/-! ## `nih_main_daemonise` (main.c lines 276-347)

The double fork is modelled by its observable outcome in each of the three
processes involved: the original caller, the intermediate (first child) and
the daemon (grandchild).  `fork1ok`/`fork2ok` say whether the two `fork`
calls succeed, `writePidOk` whether the intermediate's
`nih_main_write_pidfile` call succeeds. -/

/-- What becomes of one of the processes involved in daemonisation. -/
inductive ProcFate where
  /-- The process was never created. -/
  | absent : ProcFate
  /-- The process called `exit` with the given status. -/
  | exits : Nat → ProcFate
  /-- The call `nih_main_daemonise` returned -1 in this process with a raised
  `SystemError` (`nih_return_system_error (-1)`). -/
  | returnsErr : ProcFate
  /-- The call `nih_main_daemonise` returned 0 in this process. -/
  | returnsOk : ProcFate
  deriving DecidableEq

/-- Joint outcome of a `nih_main_daemonise` call, plus whether the
intermediate process logged the "Unable to write pid file" warning. -/
structure DaemoniseOutcome where
  original : ProcFate
  intermediate : ProcFate
  daemon : ProcFate
  pidfileWarning : Bool
  deriving DecidableEq

/-- The function `nih_main_daemonise` (main.c lines 276-347): first fork — on failure
`nih_return_system_error (-1)`, otherwise the parent exits 0; second fork in
the child — on failure `nih_return_system_error (-1)` there, otherwise the
intermediate writes the grandchild's pid file (warning on failure) and exits
0; the grandchild re-homes itself and returns 0. -/
def nih_main_daemonise (fork1ok fork2ok writePidOk : Bool) : DaemoniseOutcome :=
  if !fork1ok then ⟨.returnsErr, .absent, .absent, false⟩
  else if !fork2ok then ⟨.exits 0, .returnsErr, .absent, false⟩
  else ⟨.exits 0, .exits 0, .returnsOk, !writePidOk⟩

end NihMain

/-- C9: `nih_main_daemonise` reports a SystemError and returns -1 (in the
process still executing the call) when either fork fails, and no daemon
process results; when both forks succeed, a failed pid file write only
raises a warning and the intermediate process still exits with status 0;
the call returns 0 exactly in the surviving grandchild, and never in the
original or intermediate process. -/
theorem nih_main_daemonise_spec (f1 f2 w : Bool) :
    (f1 = false →
      NihMain.nih_main_daemonise f1 f2 w =
        ⟨.returnsErr, .absent, .absent, false⟩) ∧
      (f1 = true → f2 = false →
        NihMain.nih_main_daemonise f1 f2 w =
          ⟨.exits 0, .returnsErr, .absent, false⟩) ∧
      (f1 = true → f2 = true →
        (NihMain.nih_main_daemonise f1 f2 w).intermediate = .exits 0 ∧
          (NihMain.nih_main_daemonise f1 f2 w).pidfileWarning = !w ∧
          (NihMain.nih_main_daemonise f1 f2 w).daemon = .returnsOk) ∧
      ((NihMain.nih_main_daemonise f1 f2 w).daemon = .returnsOk ↔
        f1 = true ∧ f2 = true) ∧
      (NihMain.nih_main_daemonise f1 f2 w).original ≠ .returnsOk ∧
      (NihMain.nih_main_daemonise f1 f2 w).intermediate ≠ .returnsOk := by
  cases f1 <;> cases f2 <;> cases w <;> decide

/-- Witness for `nih_main_daemonise_spec`: both forks succeed but the pid
file write fails — the intermediate still exits 0, with the warning logged,
and the grandchild returns 0. -/
theorem nih_main_daemonise_spec_witness :
    (true = false →
      NihMain.nih_main_daemonise true true false =
        ⟨.returnsErr, .absent, .absent, false⟩) ∧
      (true = true → true = false →
        NihMain.nih_main_daemonise true true false =
          ⟨.exits 0, .returnsErr, .absent, false⟩) ∧
      (true = true → true = true →
        (NihMain.nih_main_daemonise true true false).intermediate = .exits 0 ∧
          (NihMain.nih_main_daemonise true true false).pidfileWarning = !false ∧
          (NihMain.nih_main_daemonise true true false).daemon = .returnsOk) ∧
      ((NihMain.nih_main_daemonise true true false).daemon = .returnsOk ↔
        true = true ∧ true = true) ∧
      (NihMain.nih_main_daemonise true true false).original ≠ .returnsOk ∧
      (NihMain.nih_main_daemonise true true false).intermediate ≠ .returnsOk :=
  nih_main_daemonise_spec true true false

namespace NihMain

/-! ## The per-iteration dispatch order of `nih_main_loop` (main.c lines
581-610)

After `select` returns, one iteration executes, in program order:
```
if (ret > 0)
        nih_io_handle_fds (&readfds, &writefds, &exceptfds);
while (read (interrupt_pipe[0], buf, sizeof (buf)) > 0)
        ;
nih_signal_poll ();
nih_child_poll ();
nih_timer_poll ();
NIH_LIST_FOREACH_SAFE (nih_main_loop_functions, iter) { ... }
```
The external collaborators are abstracted to the items each would dispatch;
an iteration is embedded as the ordered list of dispatch events it emits. -/

/-- One dispatch event of a loop iteration. -/
inductive LoopEvent where
  /-- A ready descriptor dispatched by `nih_io_handle_fds`. -/
  | ioReady : Nat → LoopEvent
  /-- The drain of the interrupt pipe (number of bytes read and discarded). -/
  | drain : Nat → LoopEvent
  /-- A pending signal dispatched by `nih_signal_poll`. -/
  | signal : Nat → LoopEvent
  /-- A terminated child dispatched by `nih_child_poll`. -/
  | child : Nat → LoopEvent
  /-- A due timer dispatched by `nih_timer_poll`. -/
  | timer : Nat → LoopEvent
  /-- A registered loop function invoked by the final `NIH_LIST_FOREACH_SAFE`
  traversal. -/
  | func : Nat → LoopEvent
  deriving DecidableEq

/-- What the external collaborators have pending when one iteration of the
main loop runs, plus whether `select` reported readiness (`ret > 0`). -/
structure IterationInput where
  selectReady : Bool
  readyFds : List Nat
  interruptBytes : Nat
  pendingSignals : List Nat
  terminatedChildren : List Nat
  dueTimers : List Nat
  loopFuncs : List Nat

/-- The ordered event list emitted by one iteration of `nih_main_loop`
after its `select` call returns (main.c lines 584-610): ready descriptors
only when `ret > 0`, then the interrupt pipe drain, then signals, children,
timers, and finally the registered loop functions. -/
def loopIterationEvents (it : IterationInput) : List LoopEvent :=
  (if it.selectReady then it.readyFds.map LoopEvent.ioReady else [])
    ++ LoopEvent.drain it.interruptBytes
    :: (it.pendingSignals.map LoopEvent.signal
    ++ (it.terminatedChildren.map LoopEvent.child
    ++ (it.dueTimers.map LoopEvent.timer
    ++ it.loopFuncs.map LoopEvent.func)))

/-- The event trace of successive iterations: each runs to completion before
the next begins. -/
def loopEventTrace : List IterationInput → List LoopEvent
  | [] => []
  | it :: rest => loopIterationEvents it ++ loopEventTrace rest

/-- The position of an event's dispatch step in the fixed per-iteration
order of main.c lines 584-610. -/
def eventRank : LoopEvent → Nat
  | .ioReady _ => 0
  | .drain _ => 1
  | .signal _ => 2
  | .child _ => 3
  | .timer _ => 4
  | .func _ => 5

theorem pairwise_const_append (c : Nat) (l1 l2 : List Nat)
    (h1 : ∀ a ∈ l1, a = c) (h2 : l2.Pairwise (· ≤ ·))
    (h3 : ∀ b ∈ l2, c ≤ b) : (l1 ++ l2).Pairwise (· ≤ ·) := by
  refine List.pairwise_append.mpr ⟨?_, h2, ?_⟩
  · exact List.pairwise_of_forall_mem_list
      (fun a ha b hb => by rw [h1 a ha, h1 b hb])
  · intro a ha b hb
    rw [h1 a ha]
    exact h3 b hb

end NihMain

namespace NihMain

theorem mem_replicate_chain_ge {x b c d e : Nat}
    (hx : x ∈ List.replicate b 2 ++ (List.replicate c 3 ++
      (List.replicate d 4 ++ List.replicate e (5:Nat)))) : 2 ≤ x := by
  rcases List.mem_append.mp hx with h | h
  · rw [List.eq_of_mem_replicate h]
  rcases List.mem_append.mp h with h2 | h2
  · rw [List.eq_of_mem_replicate h2]; omega
  rcases List.mem_append.mp h2 with h3 | h3 <;>
    rw [List.eq_of_mem_replicate h3] <;> omega

theorem ranksSorted (hd : Bool) (a b c d e : Nat) :
    ((if hd then List.replicate a 0 else []) ++ 1 :: (List.replicate b 2
      ++ (List.replicate c 3 ++ (List.replicate d 4 ++ List.replicate e 5)))).Pairwise
      ((· ≤ ·) : Nat → Nat → Prop) := by
  have h5 : (List.replicate e (5:Nat)).Pairwise (· ≤ ·) :=
    List.pairwise_replicate.mpr (Or.inr le_rfl)
  have h45 : (List.replicate d (4:Nat) ++ List.replicate e 5).Pairwise (· ≤ ·) :=
    pairwise_const_append 4 _ _ (fun x hx => List.eq_of_mem_replicate hx) h5
      (fun x hx => by rw [List.eq_of_mem_replicate hx]; omega)
  have h345 : (List.replicate c (3:Nat) ++ (List.replicate d 4 ++
      List.replicate e 5)).Pairwise (· ≤ ·) :=
    pairwise_const_append 3 _ _ (fun x hx => List.eq_of_mem_replicate hx) h45
      (fun x hx => by
        rcases List.mem_append.mp hx with h | h <;>
          rw [List.eq_of_mem_replicate h] <;> omega)
  have h2345 : (List.replicate b (2:Nat) ++ (List.replicate c 3 ++
      (List.replicate d 4 ++ List.replicate e 5))).Pairwise (· ≤ ·) :=
    pairwise_const_append 2 _ _ (fun x hx => List.eq_of_mem_replicate hx) h345
      (fun x hx => by
        rcases List.mem_append.mp hx with h | h
        · rw [List.eq_of_mem_replicate h]; omega
        rcases List.mem_append.mp h with h2 | h2 <;>
          rw [List.eq_of_mem_replicate h2] <;> omega)
  have h1 : ((1:Nat) :: (List.replicate b 2 ++ (List.replicate c 3 ++
      (List.replicate d 4 ++ List.replicate e 5)))).Pairwise (· ≤ ·) :=
    List.pairwise_cons.mpr
      ⟨fun x hx => by have := mem_replicate_chain_ge hx; omega, h2345⟩
  cases hd
  · simpa using h1
  · simp only [if_pos rfl]
    exact pairwise_const_append 0 _ _ (fun x hx => List.eq_of_mem_replicate hx) h1
      (fun x _ => Nat.zero_le x)

end NihMain

/-! ### Claim theorem for the per-iteration dispatch order -/

/-- C5: within one iteration of `nih_main_loop` the dispatch steps occur in
the fixed program order of main.c lines 584-610 — ready I/O descriptors
(only when `select` reported readiness), then the interrupt pipe drain, then
signal, child and timer polling, and finally the loop-function registry: the
event ranks along the iteration's trace are monotonically non-decreasing, an
I/O dispatch event occurs exactly when `select` returned ready and the
descriptor was in the ready set, and the trace of several iterations is the
in-order concatenation of the iterations' traces, with no reordering across
iterations. -/
theorem nih_main_loop_dispatch_order (it : NihMain.IterationInput)
    (iters : List NihMain.IterationInput) :
    ((NihMain.loopIterationEvents it).map NihMain.eventRank).Pairwise (· ≤ ·) ∧
      (∀ fd, NihMain.LoopEvent.ioReady fd ∈ NihMain.loopIterationEvents it ↔
        (it.selectReady = true ∧ fd ∈ it.readyFds)) ∧
      NihMain.loopEventTrace iters =
        (iters.map NihMain.loopIterationEvents).flatten := by
  refine ⟨?_, ?_, ?_⟩
  · have hmap : (NihMain.loopIterationEvents it).map NihMain.eventRank =
        (if it.selectReady then List.replicate it.readyFds.length 0 else [])
          ++ 1 :: (List.replicate it.pendingSignals.length 2
          ++ (List.replicate it.terminatedChildren.length 3
          ++ (List.replicate it.dueTimers.length 4
          ++ List.replicate it.loopFuncs.length 5))) := by
      cases hs : it.selectReady <;>
        simp [NihMain.loopIterationEvents, NihMain.eventRank, hs,
          Function.comp_def, List.map_const']
    rw [hmap]
    exact NihMain.ranksSorted it.selectReady it.readyFds.length
      it.pendingSignals.length it.terminatedChildren.length
      it.dueTimers.length it.loopFuncs.length
  · intro fd
    cases hs : it.selectReady <;>
      simp [NihMain.loopIterationEvents, hs]
  · induction iters with
    | nil => rfl
    | cons x rest ih => simp [NihMain.loopEventTrace, ih]

namespace NihMain

/-! ## The loop function registry and its removal-safe traversal
(main.c lines 154-160, 606-610, 673-698)

`nih_main_loop_functions` is an intrusive doubly-linked `NihList` with a
head sentinel; `nih_main_loop_add_func` appends a new entry at the tail
(`nih_list_add` inserts before the head sentinel), and the dispatch pass is
```
NIH_LIST_FOREACH_SAFE (nih_main_loop_functions, iter) {
        NihMainLoopFunc *func = (NihMainLoopFunc *)iter;
        func->callback (func->data, func);
}
```
Nodes are numbered with the head sentinel at 0 and entries at 1, 2, …; the
list structure is the pair of `next`/`prev` pointer maps. -/

/-- Modelled from the spec: the `NihList` intrusive doubly-linked list of
`nih/list.h` (not under `src/`) — an ordered collection threaded through
per-node `next`/`prev` references with a head sentinel (node 0). -/
structure LState where
  nxt : Nat → Nat
  prv : Nat → Nat

theorem LState.ext' {s t : LState} (h1 : s.nxt = t.nxt) (h2 : s.prv = t.prv) :
    s = t := by
  cases s
  cases t
  cases h1
  cases h2
  rfl

/-- Modelled from the spec: the empty registry — every node points at
itself, as `nih_list_init` leaves it. -/
def listEmpty : LState := ⟨id, id⟩

/-- Modelled from the spec: `nih_list_add (list, entry)` of `nih/list.c`
(not under `src/`) as used by `nih_main_loop_add_func` — append `e` at the
tail of the list with head sentinel 0 (insert `e` before the sentinel). -/
def nih_list_add (st : LState) (e : Nat) : LState :=
  let p := st.prv 0
  ⟨fun x => if x = p then e else if x = e then 0 else st.nxt x,
   fun x => if x = 0 then e else if x = e then p else st.prv x⟩

/-- Modelled from the spec: releasing an entry runs `nih_list_destroy` →
`nih_list_cut` of `nih/list.c` (not under `src/`) — unlink `e` from its
neighbours and leave it pointing at itself. -/
def nih_list_remove (st : LState) (e : Nat) : LState :=
  let p := st.prv e
  let n := st.nxt e
  ⟨fun x => if x = e then e else if x = p then n else st.nxt x,
   fun x => if x = e then e else if x = n then p else st.prv x⟩

/-- The registry after registering entries 1, 2, …, n in order through
`nih_main_loop_add_func` (each call does `nih_list_add
(nih_main_loop_functions, &func->entry)`). -/
def mkReg (n : Nat) : LState := (List.range' 1 n).foldl nih_list_add listEmpty

/-- Canonical `next` map of `mkReg n`: 0 → 1 → 2 → … → n → 0. -/
def canonNxt (n : Nat) : Nat → Nat := fun x =>
  if x = 0 then (if n = 0 then 0 else 1)
  else if x < n then x + 1
  else if x = n then 0
  else x

/-- Canonical `prev` map of `mkReg n`: the inverse cycle. -/
def canonPrv (n : Nat) : Nat → Nat := fun x =>
  if x = 0 then n else if x ≤ n then x - 1 else x

theorem mkReg_eq (n : Nat) : mkReg n = ⟨canonNxt n, canonPrv n⟩ := by
  induction n with
  | zero =>
      refine LState.ext' (funext fun x => ?_) (funext fun x => ?_)
      · show id x = canonNxt 0 x
        unfold canonNxt
        simp only [id]
        split_ifs <;> omega
      · show id x = canonPrv 0 x
        unfold canonPrv
        simp only [id]
        split_ifs <;> omega
  | succ n ih =>
      have hr : List.range' 1 (n + 1) = List.range' 1 n ++ [1 + n] := by
        simpa using @List.range'_concat 1 1 n
      have hstep : mkReg (n + 1) = nih_list_add (mkReg n) (1 + n) := by
        rw [mkReg, hr, List.foldl_append]
        rfl
      rw [hstep, ih]
      refine LState.ext' (funext fun x => ?_) (funext fun x => ?_)
      · show (if x = canonPrv n 0 then 1 + n else if x = 1 + n then 0
            else canonNxt n x) = canonNxt (n + 1) x
        simp only [canonNxt, canonPrv]
        split_ifs <;> first | omega | simp_all
      · show (if x = 0 then 1 + n else if x = 1 + n then canonPrv n 0
            else canonPrv n x) = canonPrv (n + 1) x
        simp only [canonPrv]
        split_ifs <;> first | omega | simp_all

/-- The invariant of the removal-safe traversal: from node `iter` the chain
of `next` references visits exactly the nodes of `l` and then reaches the
sentinel, every visited node is distinct from the ones after it, and no
later node is the `prev` of an earlier one (so unlinking the node under the
iterator never rewires the remainder of the chain). -/
def chainP (st : LState) : Nat → List Nat → Prop
  | iter, [] => iter = 0
  | iter, x :: xs =>
      iter = x ∧ x ≠ 0 ∧ x ∉ xs ∧ st.prv x ∉ xs ∧ chainP st (st.nxt x) xs

theorem chainP_remove_aux (st : LState) (e : Nat) :
    ∀ (ys : List Nat) (iter : Nat), chainP st iter ys → e ∉ ys →
      st.prv e ∉ ys → chainP (nih_list_remove st e) iter ys := by
  intro ys
  induction ys with
  | nil => intro iter h _ _; exact h
  | cons y zs ih =>
      intro iter h he hp
      obtain ⟨hiy, hy0, hyz, hpz, hc⟩ := h
      have hye : y ≠ e := fun hcon => he (hcon ▸ List.mem_cons_self y zs)
      have hyp : y ≠ st.prv e := fun hcon =>
        hp (hcon ▸ List.mem_cons_self y zs)
      have hez : e ∉ zs := fun hcon => he (List.mem_cons_of_mem y hcon)
      have hpzs : st.prv e ∉ zs := fun hcon => hp (List.mem_cons_of_mem y hcon)
      have hnxt : (nih_list_remove st e).nxt y = st.nxt y := by
        show (if y = e then e else if y = st.prv e then st.nxt e
          else st.nxt y) = st.nxt y
        rw [if_neg hye, if_neg hyp]
      have hprv : (nih_list_remove st e).prv y ∉ zs := by
        by_cases hyn : y = st.nxt e
        · have heq : (nih_list_remove st e).prv y = st.prv e := by
            show (if y = e then e else if y = st.nxt e then st.prv e
              else st.prv y) = st.prv e
            rw [if_neg hye, if_pos hyn]
          rw [heq]
          exact hpzs
        · have heq : (nih_list_remove st e).prv y = st.prv y := by
            show (if y = e then e else if y = st.nxt e then st.prv e
              else st.prv y) = st.prv y
            rw [if_neg hye, if_neg hyn]
          rw [heq]
          exact hpz
      exact ⟨hiy, hy0, hyz, hprv, hnxt ▸ ih (st.nxt y) hc hez hpzs⟩

/-- Modelled from the spec: one dispatch pass of `NIH_LIST_FOREACH_SAFE` of
`nih/list.h` (not under `src/`) as instantiated at main.c lines 606-610 —
starting at `iter`, save the next node, invoke the entry's callback (which,
when `rem iter` is true, frees its own entry, unlinking it), and continue
from the saved node until the sentinel is reached.  Returns the ids of the
entries invoked, in order; `fuel` bounds the traversal. -/
def runPass (rem : Nat → Bool) : Nat → LState → Nat → List Nat → List Nat
  | 0, _, _, acc => acc.reverse
  | fuel + 1, st, iter, acc =>
      if iter = 0 then acc.reverse
      else runPass rem fuel (if rem iter then nih_list_remove st iter else st)
        (st.nxt iter) (iter :: acc)

theorem runPass_succ (rem : Nat → Bool) (fuel : Nat) (st : LState)
    (iter : Nat) (acc : List Nat) :
    runPass rem (fuel + 1) st iter acc =
      if iter = 0 then acc.reverse
      else runPass rem fuel (if rem iter then nih_list_remove st iter else st)
        (st.nxt iter) (iter :: acc) := rfl

theorem runPass_chain (rem : Nat → Bool) :
    ∀ (l : List Nat) (st : LState) (iter : Nat) (acc : List Nat),
      chainP st iter l →
      runPass rem (l.length + 1) st iter acc = acc.reverse ++ l := by
  intro l
  induction l with
  | nil =>
      intro st iter acc h
      rw [show iter = 0 from h]
      simp [runPass]
  | cons x xs ih =>
      intro st iter acc h
      obtain ⟨hix, hx0, hxxs, hpxs, hc⟩ := h
      rw [hix]
      rw [show (x :: xs).length + 1 = (xs.length + 1) + 1 from rfl,
        runPass_succ, if_neg hx0]
      have hchain : chainP (if rem x then nih_list_remove st x else st)
          (st.nxt x) xs := by
        by_cases hr : rem x
        · rw [if_pos hr]
          exact chainP_remove_aux st x xs (st.nxt x) hc hxxs hpxs
        · rw [if_neg hr]
          exact hc
      rw [ih _ (st.nxt x) (x :: acc) hchain]
      simp

theorem chainP_canon (n : Nat) :
    ∀ m k, 1 ≤ k → k + m = n →
      chainP ⟨canonNxt n, canonPrv n⟩ k (List.range' k (m + 1)) := by
  intro m
  induction m with
  | zero =>
      intro k h1 h2
      refine ⟨rfl, by omega, by simp, by simp, ?_⟩
      show canonNxt n k = 0
      unfold canonNxt
      split_ifs <;> omega
  | succ m ih =>
      intro k h1 h2
      rw [show (m + 1) + 1 = (m + 2) from rfl]
      have hsucc : List.range' k (m + 2) = k :: List.range' (k + 1) (m + 1) :=
        List.range'_succ k (m + 1) 1 ▸ rfl
      rw [hsucc]
      have hprv : canonPrv n k = k - 1 := by
        unfold canonPrv
        split_ifs <;> omega
      have hnxt : canonNxt n k = k + 1 := by
        unfold canonNxt
        split_ifs <;> omega
      refine ⟨rfl, by omega, ?_, ?_, ?_⟩
      · simp only [List.mem_range'_1]
        omega
      · show canonPrv n k ∉ List.range' (k + 1) (m + 1)
        rw [hprv]
        simp only [List.mem_range'_1]
        omega
      · show chainP ⟨canonNxt n, canonPrv n⟩ (canonNxt n k)
          (List.range' (k + 1) (m + 1))
        rw [hnxt]
        exact ih (k + 1) (by omega) (by omega)

/-- The loop-function dispatch pass of `nih_main_loop` over a registry of
`n` entries registered in order: traverse from the sentinel's successor. -/
def loopFunctionsPass (n : Nat) (rem : Nat → Bool) : List Nat :=
  runPass rem (n + 1) (mkReg n) ((mkReg n).nxt 0) []

end NihMain

/-! ### Claim theorem for the loop-function registry traversal -/

/-- C2: for every number `n` of entries registered through
`nih_main_loop_add_func` and every choice `rem` of which callbacks free
their own entry during their own invocation, one dispatch pass of the
`NIH_LIST_FOREACH_SAFE` traversal invokes exactly the entries 1, …, n that
were present at the start of the pass, in registration order, each exactly
once (the invocation list is duplicate-free): self-removal neither breaks
the traversal nor causes any other entry to be skipped or invoked twice,
because the next node is taken before each callback runs. -/
theorem nih_main_loop_functions_pass (n : Nat) (rem : Nat → Bool) :
    NihMain.loopFunctionsPass n rem = List.range' 1 n ∧
      (NihMain.loopFunctionsPass n rem).Nodup := by
  have hmain : NihMain.loopFunctionsPass n rem = List.range' 1 n := by
    rw [NihMain.loopFunctionsPass, NihMain.mkReg_eq]
    cases n with
    | zero =>
        show NihMain.runPass rem 1 _ (NihMain.canonNxt 0 0) [] = _
        have h0 : NihMain.canonNxt 0 0 = 0 := by
          unfold NihMain.canonNxt
          simp
        rw [h0, NihMain.runPass_succ]
        simp
    | succ m =>
        have h0 : NihMain.canonNxt (m + 1) 0 = 1 := by
          unfold NihMain.canonNxt
          simp
        show NihMain.runPass rem (m + 2) _ (NihMain.canonNxt (m + 1) 0) [] = _
        rw [h0]
        have hchain := NihMain.chainP_canon (m + 1) m 1 (by omega) (by omega)
        have := NihMain.runPass_chain rem (List.range' 1 (m + 1))
          ⟨NihMain.canonNxt (m + 1), NihMain.canonPrv (m + 1)⟩ 1 [] hchain
        simpa using this
  exact ⟨hmain, hmain ▸ List.nodup_range' 1 n⟩
